import Mathlib

/-!
Shallow embedding of `src/Visualizer.py` (Lichess data visualization).

The Python module has four testable functions:

* `load_openings` reads a CSV into a data frame with columns `ECO` and
  `name`, drops rows where `ECO == name`, and drops duplicate `ECO`
  rows keeping the first occurrence.  We embed the data frame as a
  `List Row` and the two pandas operations as `List.filter` and a
  first-occurrence deduplication `dedupECOAux`.

* `fetch_games` performs one HTTP GET and returns `response.text` when
  `response.status_code == 200`, else `None`.  We embed the single
  response as a structure and the function as a pure map from that
  response to `Option String` (one call, no retry, so the whole
  behaviour is a function of the one response received).

* `parse_openings_from_pgn` iterates over the games of the PGN bulk
  text (`chess.pgn.read_game` until `None`), takes each game's `ECO`
  header defaulting to `""`, looks the code up in the data frame
  (`openings_df[openings_df['ECO'] == eco]['name'].values`, first hit
  if nonempty), and tallies the resulting names in a Python dict
  (`+= 1` when present, `= 1` otherwise).  We embed the stream of
  parsed games as a `List Game`, the dict as an association list with
  Python-dict update semantics (`incr`), and the loop as a `foldl`.

* `fetch_user_stats` performs one HTTP GET and on status 200 returns
  `response.json()["stat"]`; subscripting a parsed JSON value raises
  (`TypeError`/`KeyError`) when the value is not an object with that
  key, which we embed with `Except`.
-/

/-- One row of the openings data frame: columns `ECO` and `name`. -/
structure Row where
  ECO : String
  name : String
deriving DecidableEq

/-- One game parsed from the PGN bulk text, reduced to the only field
`parse_openings_from_pgn` reads: its `ECO` header, absent when the PGN
game unit has no `[ECO "..."]` tag. -/
structure Game where
  eco : Option String
deriving DecidableEq

/-- `game.headers.get("ECO", "")`: the ECO header, defaulting to `""`. -/
def getEco (g : Game) : String :=
  g.eco.getD ""

/-- `openings_df[openings_df['ECO'] == eco]['name'].values`, reduced to
its first element when nonempty (`opening_name[0]` under the
`opening_name.size > 0` guard): the name of the first row whose `ECO`
column equals `eco`, if any. -/
def lookupName (df : List Row) (eco : String) : Option String :=
  ((df.filter (fun r => r.ECO == eco)).map Row.name).head?

/-- The name a game resolves to: its (defaulted) ECO header looked up
in the data frame. -/
def resolve (df : List Row) (g : Game) : Option String :=
  lookupName df (getEco g)

/-- Python dict lookup on the association-list embedding of the tally
dict (`openings_count[name]`, `None` when absent). -/
def dictGet : List (String × Nat) → String → Option Nat
  | [], _ => none
  | (k, v) :: rest, n => if k = n then some v else dictGet rest n

/-- `openings_count[name] += 1` when `name in openings_count`, else
`openings_count[name] = 1`: update the existing entry in place, or
append a fresh entry with count 1. -/
def incr : List (String × Nat) → String → List (String × Nat)
  | [], k => [(k, 1)]
  | (k', v) :: rest, k => if k' = k then (k', v + 1) :: rest else (k', v) :: incr rest k

/-- One iteration of the `while True` loop body for one parsed game:
look the game's code up; tally the name when found, leave the dict
unchanged when not. -/
def tallyStep (df : List Row) (d : List (String × Nat)) (g : Game) : List (String × Nat) :=
  match resolve df g with
  | some nm => incr d nm
  | none => d

/-- `parse_openings_from_pgn`: fold the loop body over the games parsed
from the bulk text, starting from the empty dict `{}`. -/
def parse_openings_from_pgn (games : List Game) (df : List Row) : List (String × Nat) :=
  games.foldl (tallyStep df) []

/-- `drop_duplicates(subset='ECO', keep='first')`: keep a row when its
`ECO` is not among the `ECO`s of rows already kept (`seen`). -/
def dedupECOAux (seen : List String) : List Row → List Row
  | [] => []
  | r :: rs => if r.ECO ∈ seen then dedupECOAux seen rs
               else r :: dedupECOAux (r.ECO :: seen) rs

/-- `load_openings` applied to the rows read from the CSV: drop rows
with `ECO == name`, then drop duplicate `ECO`s keeping the first. -/
def load_openings (rows : List Row) : List Row :=
  dedupECOAux [] (rows.filter (fun r => r.ECO != r.name))

/-- The sum of the counts of a tally dict. -/
def sumValues (d : List (String × Nat)) : Nat :=
  (d.map Prod.snd).sum

/-- The one HTTP response a `requests.get` call yields, reduced to the
fields the code reads: `status_code` and `text`. -/
structure HttpResponse where
  status_code : Nat
  text : String
deriving DecidableEq

/-- `fetch_games`: `response.text` when `response.status_code == 200`,
else `None`.  A single call with no retry, so the result is a function
of the one response received. -/
def fetch_games (resp : HttpResponse) : Option String :=
  if resp.status_code = 200 then some resp.text else none

/-- A parsed JSON value, as `response.json()` returns it. -/
inductive Json where
  | null
  | bool (b : Bool)
  | num (n : Int)
  | str (s : String)
  | arr (xs : List Json)
  | obj (kvs : List (String × Json))
deriving BEq

/-- Python subscripting `j[k]` on a parsed JSON value: the value at key
`k` when `j` is an object containing it; otherwise it raises
(`KeyError` on a missing key, `TypeError` on a non-object), embedded as
`Except.error`. -/
def getItem : Json → String → Except String Json
  | Json.obj kvs, k =>
      match kvs.find? (fun p => p.1 == k) with
      | some p => Except.ok p.2
      | none => Except.error "KeyError"
  | _, _ => Except.error "TypeError"

/-- Whether the response body is a JSON object containing a `stat` key,
i.e. whether `response.json()["stat"]` evaluates without raising. -/
def hasStat (j : Json) : Bool :=
  match getItem j "stat" with
  | Except.ok _ => true
  | Except.error _ => false

/-- The one HTTP response of the per-format statistics endpoint,
reduced to the fields the code reads: `status_code` and the parsed
JSON body. -/
structure ApiResponse where
  status_code : Nat
  body : Json

/-- `fetch_user_stats`: on status 200 return `response.json()["stat"]`
(raising, embedded as `Except.error`, when the body is not an object
with a `stat` key); on any other status return `None`. -/
def fetch_user_stats (resp : ApiResponse) : Except String (Option Json) :=
  if resp.status_code = 200 then
    match getItem resp.body "stat" with
    | Except.ok v => Except.ok (some v)
    | Except.error e => Except.error e
  else Except.ok none

/-- Looking a key up after a Python-dict increment: the incremented
key reads one more than before (0 when absent), other keys unchanged. -/
lemma dictGet_incr (d : List (String × Nat)) (k n : String) :
    dictGet (incr d k) n
      = if k = n then some ((dictGet d n).getD 0 + 1) else dictGet d n := by
  induction d with
  | nil =>
      by_cases h : k = n <;> simp [incr, dictGet, h]
  | cons p rest ih =>
      obtain ⟨k', v⟩ := p
      by_cases h1 : k' = k
      · subst h1
        by_cases h2 : k' = n <;> simp [incr, dictGet, h2]
      · by_cases h2 : k' = n
        · subst h2
          have hkn : ¬ k = k' := fun h => h1 h.symm
          simp [incr, dictGet, h1, hkn]
        · simp [incr, dictGet, h1, h2, ih]

/-- Running the tally loop from any dict adds, at each key, the number
of remaining games resolving to that key. -/
lemma foldl_getD (df : List Row) (games : List Game) :
    ∀ (d : List (String × Nat)) (n : String),
      (dictGet (games.foldl (tallyStep df) d) n).getD 0
        = (dictGet d n).getD 0
            + games.countP (fun g => decide (resolve df g = some n)) := by
  induction games with
  | nil => intro d n; simp
  | cons g gs ih =>
      intro d n
      rw [List.foldl_cons, ih, List.countP_cons]
      cases hres : resolve df g with
      | none => simp [tallyStep, hres]
      | some nm =>
          by_cases h : nm = n
          · subst h
            simp [tallyStep, hres, dictGet_incr]
            omega
          · simp [tallyStep, hres, dictGet_incr, h]

/-- A key is absent after the tally loop iff it was absent before and
no remaining game resolves to it. -/
lemma foldl_get_none (df : List Row) (games : List Game) :
    ∀ (d : List (String × Nat)) (n : String),
      dictGet (games.foldl (tallyStep df) d) n = none
        ↔ (dictGet d n = none
            ∧ games.countP (fun g => decide (resolve df g = some n)) = 0) := by
  induction games with
  | nil => intro d n; simp
  | cons g gs ih =>
      intro d n
      rw [List.foldl_cons, ih, List.countP_cons]
      cases hres : resolve df g with
      | none => simp [tallyStep, hres]
      | some nm =>
          by_cases h : nm = n
          · subst h
            simp [tallyStep, hres, dictGet_incr]
          · simp [tallyStep, hres, dictGet_incr, h]

/-- Characterization of the aggregate: looking a name up in the result
yields the number of games resolving to it, and `none` when that
number is zero. -/
lemma agg_get (df : List Row) (games : List Game) (n : String) :
    dictGet (parse_openings_from_pgn games df) n
      = if games.countP (fun g => decide (resolve df g = some n)) = 0 then none
        else some (games.countP (fun g => decide (resolve df g = some n))) := by
  unfold parse_openings_from_pgn
  by_cases hc : games.countP (fun g => decide (resolve df g = some n)) = 0
  · rw [if_pos hc]
    exact (foldl_get_none df games [] n).mpr ⟨rfl, hc⟩
  · rw [if_neg hc]
    have h1 := foldl_getD df games [] n
    cases hd : dictGet (games.foldl (tallyStep df) []) n with
    | none => exact absurd ((foldl_get_none df games [] n).mp hd).2 hc
    | some v =>
        rw [hd] at h1
        simp [dictGet] at h1
        rw [h1]

/-- Tallying games that all resolve to the same name, starting from a
one-entry dict at that name, just adds their number to its count. -/
lemma foldl_uniform (df : List Row) (nm : String) :
    ∀ (games : List Game), (∀ g ∈ games, resolve df g = some nm) →
      ∀ c, games.foldl (tallyStep df) [(nm, c)] = [(nm, c + games.length)] := by
  intro games
  induction games with
  | nil => intro _ c; simp
  | cons g gs ih =>
      intro hall c
      have hg : resolve df g = some nm := hall g (by simp)
      rw [List.foldl_cons]
      have hstep : tallyStep df [(nm, c)] g = [(nm, c + 1)] := by
        simp [tallyStep, hg, incr]
      rw [hstep, ih (fun g2 h2 => hall g2 (by simp [h2])) (c + 1)]
      simp
      omega

/-- Aggregating a nonempty list of games that all resolve to the same
name yields the one-entry dict holding that name with their number. -/
lemma agg_uniform (df : List Row) (nm : String) (games : List Game)
    (hall : ∀ g ∈ games, resolve df g = some nm) (hne : games ≠ []) :
    parse_openings_from_pgn games df = [(nm, games.length)] := by
  cases games with
  | nil => exact absurd rfl hne
  | cons g gs =>
      unfold parse_openings_from_pgn
      rw [List.foldl_cons]
      have hg : resolve df g = some nm := hall g (by simp)
      have h0 : tallyStep df [] g = [(nm, 1)] := by simp [tallyStep, hg, incr]
      rw [h0, foldl_uniform df nm gs (fun g2 h2 => hall g2 (by simp [h2])) 1]
      simp
      omega

/-- A Python-dict increment keeps all counts positive. -/
lemma incr_pos (d : List (String × Nat)) (k : String)
    (h : ∀ p ∈ d, 0 < p.2) : ∀ p ∈ incr d k, 0 < p.2 := by
  induction d with
  | nil => simp [incr]
  | cons q rest ih =>
      obtain ⟨k', v⟩ := q
      by_cases hk : k' = k
      · intro p hp
        simp [incr, hk] at hp
        rcases hp with hp | hp
        · subst hp; simp
        · exact h p (by simp [hp])
      · intro p hp
        simp [incr, hk] at hp
        rcases hp with hp | hp
        · subst hp; exact h (k', v) (by simp)
        · exact ih (fun q hq => h q (by simp [hq])) p hp

/-- A Python-dict increment raises the total count by one. -/
lemma incr_sum (d : List (String × Nat)) (k : String) :
    sumValues (incr d k) = sumValues d + 1 := by
  induction d with
  | nil => simp [incr, sumValues]
  | cons q rest ih =>
      obtain ⟨k', v⟩ := q
      by_cases hk : k' = k
      · simp [incr, hk, sumValues]
        omega
      · simp [incr, hk, sumValues] at ih ⊢
        omega

/-- The tally loop keeps all counts positive. -/
lemma foldl_pos (df : List Row) (games : List Game) :
    ∀ d, (∀ p ∈ d, 0 < p.2) →
      ∀ p ∈ games.foldl (tallyStep df) d, 0 < p.2 := by
  induction games with
  | nil => intro d h; simpa using h
  | cons g gs ih =>
      intro d h
      rw [List.foldl_cons]
      apply ih
      cases hres : resolve df g with
      | none => simpa [tallyStep, hres] using h
      | some nm =>
          simp only [tallyStep, hres]
          exact incr_pos d nm h

/-- The tally loop raises the total count by the number of games whose
code has a match in the reference table. -/
lemma foldl_sum (df : List Row) (games : List Game) :
    ∀ d, sumValues (games.foldl (tallyStep df) d)
        = sumValues d + games.countP (fun g => (resolve df g).isSome) := by
  induction games with
  | nil => intro d; simp
  | cons g gs ih =>
      intro d
      rw [List.foldl_cons, ih, List.countP_cons]
      cases hres : resolve df g with
      | none => simp [tallyStep, hres]
      | some nm =>
          simp [tallyStep, hres, incr_sum]
          omega

/-- Every row the deduplication keeps came from the input. -/
lemma mem_dedupECOAux : ∀ (l : List Row) (seen : List String) (r : Row),
    r ∈ dedupECOAux seen l → r ∈ l := by
  intro l
  induction l with
  | nil => simp [dedupECOAux]
  | cons q rest ih =>
      intro seen r hr
      by_cases hq : q.ECO ∈ seen
      · simp only [dedupECOAux, if_pos hq] at hr
        exact List.mem_cons_of_mem q (ih seen r hr)
      · simp only [dedupECOAux, if_neg hq] at hr
        rcases List.mem_cons.mp hr with hr | hr
        · simp [hr]
        · exact List.mem_cons_of_mem q (ih _ r hr)

/-- The deduplication yields pairwise distinct `ECO`s, none of them
among the codes already seen. -/
lemma dedupECOAux_nodup : ∀ (l : List Row) (seen : List String),
    ((dedupECOAux seen l).map Row.ECO).Nodup
      ∧ ∀ r ∈ dedupECOAux seen l, r.ECO ∉ seen := by
  intro l
  induction l with
  | nil => intro seen; simp [dedupECOAux]
  | cons q rest ih =>
      intro seen
      by_cases hq : q.ECO ∈ seen
      · simpa only [dedupECOAux, if_pos hq] using ih seen
      · simp only [dedupECOAux, if_neg hq]
        obtain ⟨ihn, ihs⟩ := ih (q.ECO :: seen)
        refine ⟨?_, ?_⟩
        · simp only [List.map_cons, List.nodup_cons]
          refine ⟨?_, ihn⟩
          intro hmem
          obtain ⟨r, hr, hre⟩ := List.mem_map.mp hmem
          exact (ihs r hr) (by simp [hre])
        · intro r hr
          rcases List.mem_cons.mp hr with hr | hr
          · subst hr; exact hq
          · intro hrs
            exact (ihs r hr) (by simp [hrs])

/-- The deduplication preserves the first row found at each code not
already seen. -/
lemma dedupECOAux_find? : ∀ (l : List Row) (c : String) (seen : List String),
    c ∉ seen →
    (dedupECOAux seen l).find? (fun r => r.ECO == c)
      = l.find? (fun r => r.ECO == c) := by
  intro l
  induction l with
  | nil => intro c seen _; simp [dedupECOAux]
  | cons q rest ih =>
      intro c seen hc
      by_cases hq : q.ECO ∈ seen
      · have hqc : (q.ECO == c) = false := by
          simp only [beq_eq_false_iff_ne, ne_eq]
          intro h; exact hc (h ▸ hq)
        simp only [dedupECOAux, if_pos hq]
        rw [ih c seen hc, List.find?_cons, hqc]
      · simp only [dedupECOAux, if_neg hq]
        rw [List.find?_cons, List.find?_cons]
        cases hqc : (q.ECO == c) with
        | true => rfl
        | false =>
            apply ih
            simp only [List.mem_cons, not_or]
            refine ⟨?_, hc⟩
            intro h
            rw [h] at hqc
            simp at hqc

/-- Two mutually exclusive predicates that jointly cover a list count
its length between them. -/
lemma countP_two (l : List Game) (p q : Game → Bool)
    (h : ∀ a ∈ l, (p a = true ∨ q a = true) ∧ ¬(p a = true ∧ q a = true)) :
    l.countP p + l.countP q = l.length := by
  induction l with
  | nil => simp
  | cons a rest ih =>
      rw [List.countP_cons, List.countP_cons, List.length_cons]
      have ha := h a (by simp)
      have hrest := ih (fun b hb => h b (by simp [hb]))
      rcases ha with ⟨hor, hnand⟩
      rcases hor with hp | hq
      · have hq0 : q a = false := by
          cases hqa : q a with
          | false => rfl
          | true => exact absurd ⟨hp, hqa⟩ hnand
        simp [hp, hq0]
        omega
      · have hp0 : p a = false := by
          cases hpa : p a with
          | false => rfl
          | true => exact absurd ⟨hpa, hq⟩ hnand
        simp [hq, hp0]
        omega

/-- Aggregating games that all resolve to no table entry yields the
empty dict. -/
lemma agg_nil_of_none : ∀ (df : List Row) (games : List Game),
    (∀ g ∈ games, resolve df g = none) → parse_openings_from_pgn games df = []
  | _, [], _ => rfl
  | df, g :: gs, h => by
      unfold parse_openings_from_pgn
      rw [List.foldl_cons]
      have hs : tallyStep df [] g = [] := by simp [tallyStep, h g (by simp)]
      rw [hs]
      exact agg_nil_of_none df gs (fun g2 h2 => h g2 (by simp [h2]))

/-- C1: aggregating a bulk text of N >= 1 game units all carrying the
same opening code, present in the reference table with a display name,
yields the one-entry mapping from that name to N; and the scenario
with codes C20, B01, C20 against the table mapping C20 to King\'s Pawn
Game and B01 to Scandinavian Defense yields counts 2 and 1.  (For
N = 0 the bulk text is empty and the result is the empty mapping, as
the spec states separately.) -/
theorem C1_aggregate_uniform_code :
    (∀ (df : List Row) (games : List Game) (c nm : String),
        (∀ g ∈ games, getEco g = c) → lookupName df c = some nm → games ≠ [] →
        parse_openings_from_pgn games df = [(nm, games.length)])
    ∧ parse_openings_from_pgn
        [⟨some "C20"⟩, ⟨some "B01"⟩, ⟨some "C20"⟩]
        [⟨"C20", "King\'s Pawn Game"⟩, ⟨"B01", "Scandinavian Defense"⟩]
      = [("King\'s Pawn Game", 2), ("Scandinavian Defense", 1)] := by
  constructor
  · intro df games c nm hall hlook hne
    apply agg_uniform df nm games _ hne
    intro g hg
    rw [resolve, hall g hg]
    exact hlook
  · decide

/-- C1 witness: three games all carrying C20 against a table mapping
C20 to King\'s Pawn Game tally to the one-entry mapping at count 3. -/
theorem C1_witness :
    parse_openings_from_pgn [⟨some "C20"⟩, ⟨some "C20"⟩, ⟨some "C20"⟩]
        [⟨"C20", "King\'s Pawn Game"⟩]
      = [("King\'s Pawn Game", 3)] := by
  have h := C1_aggregate_uniform_code.1 [⟨"C20", "King\'s Pawn Game"⟩]
      [⟨some "C20"⟩, ⟨some "C20"⟩, ⟨some "C20"⟩] "C20" "King\'s Pawn Game"
      (by decide) (by decide) (by decide)
  simpa using h

/-- C2: the loaded reference table has pairwise distinct codes, no
entry whose code equals its name, the first row at each code is the
one retained, and the duplicate-C20 scenario keeps only the first
row. -/
theorem C2_load_openings_dedup :
    (∀ rows : List Row,
        (((load_openings rows).map Row.ECO).Nodup)
        ∧ (∀ r ∈ load_openings rows, r.ECO ≠ r.name)
        ∧ (∀ c : String,
            (load_openings rows).find? (fun r => r.ECO == c)
              = (rows.filter (fun r => r.ECO != r.name)).find?
                  (fun r => r.ECO == c)))
    ∧ load_openings [⟨"C20", "King\'s Pawn Game"⟩, ⟨"C20", "Duplicate Row"⟩]
        = [⟨"C20", "King\'s Pawn Game"⟩] := by
  constructor
  · intro rows
    refine ⟨(dedupECOAux_nodup _ []).1, ?_, ?_⟩
    · intro r hr
      have hmem := mem_dedupECOAux _ [] r hr
      have hf := List.mem_filter.mp hmem
      simpa using hf.2
    · intro c
      exact dedupECOAux_find? _ c [] (by simp)
  · decide

/-- C2 witness: instantiating the loading invariants on the
duplicate-C20 table. -/
theorem C2_witness :
    ((load_openings [⟨"C20", "King\'s Pawn Game"⟩,
        ⟨"C20", "Duplicate Row"⟩]).map Row.ECO).Nodup
    ∧ (Row.mk "C20" "King\'s Pawn Game").ECO
        ≠ (Row.mk "C20" "King\'s Pawn Game").name := by
  refine ⟨(C2_load_openings_dedup.1 _).1, ?_⟩
  exact (C2_load_openings_dedup.1
      [⟨"C20", "King\'s Pawn Game"⟩, ⟨"C20", "Duplicate Row"⟩]).2.1
    ⟨"C20", "King\'s Pawn Game"⟩ (by decide)

/-- C3: the aggregate is order-independent: permuting the game units
leaves the resulting mapping unchanged (same lookup at every name). -/
theorem C3_aggregate_perm_invariant (df : List Row) (g1 g2 : List Game)
    (hperm : g1.Perm g2) (n : String) :
    dictGet (parse_openings_from_pgn g1 df) n
      = dictGet (parse_openings_from_pgn g2 df) n := by
  rw [agg_get, agg_get, hperm.countP_eq]

/-- C3 witness: swapping two games leaves the count of the first name
unchanged. -/
theorem C3_witness :
    dictGet (parse_openings_from_pgn [⟨some "C20"⟩, ⟨some "B01"⟩]
        [⟨"C20", "King\'s Pawn Game"⟩, ⟨"B01", "Scandinavian Defense"⟩])
      "King\'s Pawn Game"
    = dictGet (parse_openings_from_pgn [⟨some "B01"⟩, ⟨some "C20"⟩]
        [⟨"C20", "King\'s Pawn Game"⟩, ⟨"B01", "Scandinavian Defense"⟩])
      "King\'s Pawn Game" :=
  C3_aggregate_perm_invariant _ _ _ (List.Perm.swap _ _ _) "King\'s Pawn Game"

/-- C4 counterexample: a reference table may contain a row whose code
is the empty string (`load_openings` only drops rows with code equal
to name), and then a game unit lacking the ECO header is tallied under
that row\'s name: the aggregate is not the empty mapping. -/
theorem C4_counterexample :
    parse_openings_from_pgn [⟨none⟩] [⟨"", "Mystery Opening"⟩]
      = [("Mystery Opening", 1)] := by decide

/-- C4 (amended): aggregating the empty bulk text yields the empty
mapping for every reference table; and when every game unit lacks the
ECO header, the code is treated as the empty string, so provided no
table row carries the empty code the result is the empty mapping. -/
theorem C4_empty_and_missing_eco :
    (∀ df : List Row, parse_openings_from_pgn [] df = [])
    ∧ (∀ (df : List Row) (games : List Game),
        (∀ g ∈ games, g.eco = none) → (∀ r ∈ df, r.ECO ≠ "") →
        parse_openings_from_pgn games df = []) := by
  constructor
  · intro df; rfl
  · intro df games hgames hdf
    apply agg_nil_of_none
    intro g hg
    have heco : getEco g = "" := by rw [getEco, hgames g hg]; rfl
    rw [resolve, heco, lookupName]
    have hfil : df.filter (fun r => r.ECO == "") = [] := by
      rw [List.filter_eq_nil_iff]
      intro r hr
      simp [hdf r hr]
    rw [hfil]
    rfl

/-- C4 witness: two header-less games against a table with no
empty-string code aggregate to the empty mapping. -/
theorem C4_witness :
    parse_openings_from_pgn [⟨none⟩, ⟨none⟩] [⟨"C20", "King\'s Pawn Game"⟩] = [] :=
  C4_empty_and_missing_eco.2 _ _ (by decide) (by decide)

/-- C5: a game unit whose code has no match in the reference table is
skipped silently: removing it from the bulk text leaves the aggregate
unchanged, so it contributes to no entry and no catch-all bucket is
created (and the total function raises nothing). -/
theorem C5_unknown_code_skipped (df : List Row) (pre post : List Game) (g : Game)
    (h : lookupName df (getEco g) = none) :
    parse_openings_from_pgn (pre ++ g :: post) df
      = parse_openings_from_pgn (pre ++ post) df := by
  unfold parse_openings_from_pgn
  rw [List.foldl_append, List.foldl_append, List.foldl_cons]
  have hstep : tallyStep df (pre.foldl (tallyStep df) []) g
      = pre.foldl (tallyStep df) [] := by
    simp [tallyStep, resolve, h]
  rw [hstep]

/-- C5 witness: dropping a game with the unknown code Z99 leaves the
aggregate unchanged. -/
theorem C5_witness :
    parse_openings_from_pgn [⟨some "C20"⟩, ⟨some "Z99"⟩]
        [⟨"C20", "King\'s Pawn Game"⟩]
      = parse_openings_from_pgn [⟨some "C20"⟩] [⟨"C20", "King\'s Pawn Game"⟩] :=
  C5_unknown_code_skipped _ [⟨some "C20"⟩] [] ⟨some "Z99"⟩ (by decide)

/-- C6 counterexample: a 204 response (a success in the 2xx range)
still yields the absent-result, since the code tests for status 200
exactly, so "returns the text exactly on a 2xx-equivalent response" is
false as stated. -/
theorem C6_counterexample :
    200 ≤ 204 ∧ 204 < 300 ∧ fetch_games ⟨204, "pgn bulk text"⟩ = none := by
  decide

/-- C6 (amended): `fetch_games` returns the raw response text exactly
when the status code is exactly 200; every other status, 2xx codes
other than 200 included, yields the absent-result.  (The embedding
maps the one response of the single call to the result: no retry.) -/
theorem C6_status_200_exact (resp : HttpResponse) :
    (fetch_games resp = some resp.text ↔ resp.status_code = 200)
    ∧ (∀ t, fetch_games resp = some t → resp.status_code = 200 ∧ t = resp.text)
    ∧ (resp.status_code ≠ 200 → fetch_games resp = none) := by
  unfold fetch_games
  by_cases h : resp.status_code = 200
  · simp [h]
  · simp [h]

/-- C6 witness: a 404 response yields the absent-result. -/
theorem C6_witness : fetch_games ⟨404, "Not Found"⟩ = none :=
  (C6_status_200_exact ⟨404, "Not Found"⟩).2.2 (by decide)

/-- C7: on a status-200 response `fetch_user_stats` returns the value
of the body\'s `stat` field, and on any other status it returns the
absent-result; a single call, no retry. -/
theorem C7_stats_on_success (resp : ApiResponse) :
    (∀ v, resp.status_code = 200 → getItem resp.body "stat" = Except.ok v →
        fetch_user_stats resp = Except.ok (some v))
    ∧ (resp.status_code ≠ 200 → fetch_user_stats resp = Except.ok none) := by
  constructor
  · intro v h200 hstat
    unfold fetch_user_stats
    rw [if_pos h200, hstat]
  · intro hne
    unfold fetch_user_stats
    rw [if_neg hne]

/-- The nested count record documented for the statistics endpoint:
count.all, count.win, count.loss, count.draw. -/
def statVal : Json :=
  Json.obj [("count", Json.obj
    [("all", Json.num 100), ("win", Json.num 50),
     ("loss", Json.num 40), ("draw", Json.num 10)])]

/-- A status-200 body holding the `stat` field. -/
def statBody : Json := Json.obj [("stat", statVal)]

/-- C7 witness: a 200 response whose body carries the documented
`stat` record yields exactly that record. -/
theorem C7_witness :
    fetch_user_stats ⟨200, statBody⟩ = Except.ok (some statVal) :=
  (C7_stats_on_success ⟨200, statBody⟩).1 statVal rfl rfl

/-- C8: on a status-200 response whose body is not a JSON object with
a `stat` key, `fetch_user_stats` raises (an `Except.error`), and the
absent-result is produced exactly for the non-200 statuses. -/
theorem C8_missing_stat_raises (resp : ApiResponse) :
    (resp.status_code = 200 → hasStat resp.body = false →
      ∃ e, fetch_user_stats resp = Except.error e)
    ∧ (fetch_user_stats resp = Except.ok none ↔ resp.status_code ≠ 200) := by
  constructor
  · intro h200 hno
    unfold fetch_user_stats
    rw [if_pos h200]
    unfold hasStat at hno
    cases hg : getItem resp.body "stat" with
    | ok v => rw [hg] at hno; simp at hno
    | error e => exact ⟨e, rfl⟩
  · unfold fetch_user_stats
    by_cases h : resp.status_code = 200
    · rw [if_pos h]
      cases hg : getItem resp.body "stat" with
      | ok v => simp [h]
      | error e => simp [h]
    · simp [if_neg h, h]

/-- C8 witness: a 200 response whose body is an object without a
`stat` key makes `fetch_user_stats` raise. -/
theorem C8_witness :
    ∃ e, fetch_user_stats ⟨200, Json.obj []⟩ = Except.error e :=
  (C8_missing_stat_raises ⟨200, Json.obj []⟩).1 rfl rfl

/-- C9: two distinct codes that the table maps to the same display
name are tallied together: games carrying either code produce the one
entry at that name whose count is the sum of the per-code counts. -/
theorem C9_shared_name_merged (df : List Row) (c1 c2 nm : String)
    (games : List Game)
    (h1 : lookupName df c1 = some nm) (h2 : lookupName df c2 = some nm)
    (hne : c1 ≠ c2)
    (hall : ∀ g ∈ games, getEco g = c1 ∨ getEco g = c2)
    (hpos : games ≠ []) :
    parse_openings_from_pgn games df
      = [(nm, games.countP (fun g => decide (getEco g = c1))
              + games.countP (fun g => decide (getEco g = c2)))] := by
  have hres : ∀ g ∈ games, resolve df g = some nm := by
    intro g hg
    rcases hall g hg with h | h <;> rw [resolve, h] <;> assumption
  have hsplit := countP_two games
      (fun g => decide (getEco g = c1)) (fun g => decide (getEco g = c2)) ?_
  · rw [agg_uniform df nm games hres hpos, hsplit]
  · intro a _
    constructor
    · rcases hall a (by assumption) with h | h <;> simp [h]
    · rintro ⟨hp, hq⟩
      simp at hp hq
      exact hne (hp ▸ hq ▸ rfl)

/-- C9 witness: C20 and C21 both mapped to King\'s Pawn Game tally
three games carrying those codes into the single entry at count 3. -/
theorem C9_witness :
    parse_openings_from_pgn [⟨some "C20"⟩, ⟨some "C21"⟩, ⟨some "C20"⟩]
        [⟨"C20", "King\'s Pawn Game"⟩, ⟨"C21", "King\'s Pawn Game"⟩]
      = [("King\'s Pawn Game", 3)] := by
  rw [C9_shared_name_merged [⟨"C20", "King\'s Pawn Game"⟩, ⟨"C21", "King\'s Pawn Game"⟩]
      "C20" "C21" "King\'s Pawn Game" [⟨some "C20"⟩, ⟨some "C21"⟩, ⟨some "C20"⟩]
      (by decide) (by decide) (by decide) (by decide) (by decide)]
  decide

/-- C10: every count in the aggregate is at least 1, and the counts
sum to the number of game units whose (defaulted) code has a match in
the reference table. -/
theorem C10_counts_positive_and_sum (df : List Row) (games : List Game) :
    (parse_openings_from_pgn games df).all (fun p => decide (0 < p.2)) = true
    ∧ sumValues (parse_openings_from_pgn games df)
        = games.countP (fun g => (resolve df g).isSome) := by
  constructor
  · rw [List.all_eq_true]
    intro p hp
    simpa using foldl_pos df games [] (by simp) p hp
  · have hs := foldl_sum df games []
    simpa [parse_openings_from_pgn, sumValues] using hs
